import Mathlib

/-!
# Modulus/remainder analysis of Halide (`src/ModulusRemainder.cpp`)

A shallow embedding of the analyzer `ComputeModulusRemainder` and of its front ends
`modulus_remainder` and `reduce_expr_modulo`, followed by theorems about them.

Conventions of the embedding:

* a value of the C++ type `int` is an `Int` in `[-2^31, 2^31)`; the result of an `int`
  addition, subtraction, negation or multiplication is reduced with `wrap`, the
  two's-complement wrap-around (signed overflow is undefined behaviour in C++, and wrapping
  is what the compiled code does);
* the C++ operator `%` truncates toward zero, it is `Int.tmod`; it cannot overflow, apart
  from `INT_MIN % -1`, on whose value no theorem below rests;
* a failed `assert` aborts the process: a function that can abort returns `Option`,
  and `none` stands for the abort;
* the visitor mutates the fields `modulus`, `remainder` and `scope` of the analyzer: the
  embedding passes the analyzer record explicitly.
-/

namespace Halide.Internal

/-- The abstract value: the pair built by `ModulusRemainder(modulus, remainder)`. -/
structure ModulusRemainder where
  modulus : Int
  remainder : Int
deriving DecidableEq, Repr

/-- Modelled from the spec: the class template `Scope<T>` of `Scope.h` is used by the
analyzer and is absent from the source files. The spec describes it as a last-in-first-out
stack of bindings `name → ModulusRemainder`: lookup returns the top-most binding for a name,
push adds a binding, pop removes the most recent binding for a given name. The head of the
list is the top of the stack. -/
abbrev Scope := List (String × ModulusRemainder)

/-- Modelled from the spec: `Scope::contains(name)`, whether some binding for `name` is on the stack. -/
def Scope.contains : Scope → String → Bool
  | [], _ => false
  | (n, _) :: rest, name => if n = name then true else Scope.contains rest name

/-- Modelled from the spec: `Scope::get(name)`, the top-most binding for `name`
(`none` when there is no binding, where the C++ class raises an error). -/
def Scope.get : Scope → String → Option ModulusRemainder
  | [], _ => none
  | (n, v) :: rest, name => if n = name then some v else Scope.get rest name

/-- Modelled from the spec: `Scope::push(name, value)` adds a binding on top of the stack. -/
def Scope.push (s : Scope) (name : String) (value : ModulusRemainder) : Scope :=
  (name, value) :: s

/-- Modelled from the spec: `Scope::pop(name)` removes the most recent binding for `name`. -/
def Scope.pop : Scope → String → Scope
  | [], _ => []
  | (n, v) :: rest, name => if n = name then rest else (n, v) :: Scope.pop rest name

/-- The IR node kinds that `ComputeModulusRemainder` has a `visit` overload for
(lines 19-54 of the source). The declarations of `IR.h` are not among the source files: a node
carries the fields that the analyzer reads (`value`, `name`, `a`, `b`, `true_value`,
`false_value`, `body`) and, for the kinds whose fields the analyzer never reads, its operand
expressions where the IR has them. The statement kinds carry nothing. -/
inductive Expr where
  | IntImm (value : Int)
  | FloatImm
  | Cast (value : Expr)
  | Variable (name : String)
  | Add (a b : Expr)
  | Sub (a b : Expr)
  | Mul (a b : Expr)
  | Div (a b : Expr)
  | Mod (a b : Expr)
  | Min (a b : Expr)
  | Max (a b : Expr)
  | EQ (a b : Expr)
  | NE (a b : Expr)
  | LT (a b : Expr)
  | LE (a b : Expr)
  | GT (a b : Expr)
  | GE (a b : Expr)
  | And (a b : Expr)
  | Or (a b : Expr)
  | Not (a : Expr)
  | Select (condition true_value false_value : Expr)
  | Load (name : String) (index : Expr)
  | Ramp (base stride : Expr)
  | Broadcast (value : Expr)
  | Call (name : String)
  | Let (name : String) (value body : Expr)
  | LetStmt
  | PrintStmt
  | AssertStmt
  | Pipeline
  | For
  | Store
  | Provide
  | Allocate
  | Realize
  | Block
deriving Repr

/-- The value that an `int` holds after an arithmetic operation whose exact result is `x`:
`x` itself when `-2^31 ≤ x < 2^31`, and otherwise the integer of that range that is congruent
to `x` modulo `2^32`. -/
def wrap (x : Int) : Int :=
  (x + 2147483648) % 4294967296 - 2147483648

/-- The loop `while (b != 0) { tmp = b; b = a % b; a = tmp; }` of `gcd`, run for at most
`fuel` iterations: `some a` when the loop exits, `none` when the fuel is used up first. -/
def gcdLoop : Nat → Int → Int → Option Int
  | 0, _, _ => none
  | fuel + 1, a, b => if b ≠ 0 then gcdLoop fuel b (a.tmod b) else some a

/-- The function `gcd` (lines 152-160): swap when `a < b`, then the Euclidean loop. The loop is
given `|b| + 1` iterations, which is always enough (`gcdLoop_isSome`), because `|a % b| < |b|`;
the default value of `getD` is never used. -/
def gcd (a b : Int) : Int :=
  if a < b then (gcdLoop (a.natAbs + 1) b a).getD 0
  else (gcdLoop (b.natAbs + 1) a b).getD 0

/-- The function `mod` (lines 162-167). The addition `a += m` is exact: after `a = a % m` the
value of `a` is strictly between `-|m|` and `|m|`, so for `m > 0` the sum lies in `(0, m)` and
cannot overflow; for `m < 0` the sum is below `m`, and it is the value of the `int` as long
as `m ≥ -2^30`. -/
def mod (a m : Int) : Int :=
  if m = 0 then a
  else
    let a := a.tmod m
    if a < 0 then a + m else a

/-- The function `unify_alternatives` (lines 221-242); `none` is the failed assertion
`ra == rb`. The subtraction `a.remainder - b.remainder` and the negation `-diff` are `int`
operations. -/
def unify_alternatives (a b : ModulusRemainder) : Option ModulusRemainder :=
  let modulus := gcd a.modulus b.modulus
  let diff := wrap (a.remainder - b.remainder)
  let diff := if diff < 0 then wrap (-diff) else diff
  let modulus := gcd diff modulus
  let ra := mod a.remainder modulus
  let rb := mod b.remainder modulus
  if ra = rb then some ⟨modulus, ra⟩ else none

/-- The analyzer object: the fields `modulus`, `remainder` and `scope` of the class
`ComputeModulusRemainder` (lines 14-15). -/
structure ComputeModulusRemainder where
  modulus : Int
  remainder : Int
  scope : Scope
deriving DecidableEq, Repr

/-- The body of `analyze` after the dispatch `e.accept(this)` (lines 88-91): when the visit
`v` returns, the result is `ModulusRemainder(modulus, remainder)` read from the fields. -/
def ComputeModulusRemainder.analyzeWith
    (v : ComputeModulusRemainder → Option ComputeModulusRemainder)
    (self : ComputeModulusRemainder) : Option (ModulusRemainder × ComputeModulusRemainder) :=
  match v self with
  | none => none
  | some s => some (⟨s.modulus, s.remainder⟩, s)

/-- The `visit` overloads (lines 124-385), one case per node kind; `none` is an abort
(`assert(false && ...)`, or the assertion of `unify_alternatives`). In the last branch of
`Mul` the source assigns the local `a.remainder`, so the field `remainder` keeps the value it
had after `analyze(op->b)`. Where the source passes `analyze(op->a)` and `analyze(op->b)` as
the two arguments of one call, the embedding runs them left to right. The sums, differences
and products of `Add`, `Sub` and `Mul` are `int` operations. -/
def ComputeModulusRemainder.visit : Expr → ComputeModulusRemainder → Option ComputeModulusRemainder
  | .IntImm value, self => some { self with remainder := value, modulus := 0 }
  | .FloatImm, _ => none
  | .Cast _, self => some { self with modulus := 1, remainder := 0 }
  | .Variable name, self =>
    if self.scope.contains name then
      match self.scope.get name with
      | some mod_rem => some { self with modulus := mod_rem.modulus, remainder := mod_rem.remainder }
      | none => none
    else some { self with modulus := 1, remainder := 0 }
  | .Add opa opb, self =>
    match analyzeWith (visit opa) self with
    | none => none
    | some (a, s1) =>
      match analyzeWith (visit opb) s1 with
      | none => none
      | some (b, s2) =>
        let modulus := gcd a.modulus b.modulus
        some { s2 with modulus := modulus, remainder := mod (wrap (a.remainder + b.remainder)) modulus }
  | .Sub opa opb, self =>
    match analyzeWith (visit opa) self with
    | none => none
    | some (a, s1) =>
      match analyzeWith (visit opb) s1 with
      | none => none
      | some (b, s2) =>
        let modulus := gcd a.modulus b.modulus
        some { s2 with modulus := modulus, remainder := mod (wrap (a.remainder - b.remainder)) modulus }
  | .Mul opa opb, self =>
    match analyzeWith (visit opa) self with
    | none => none
    | some (a, s1) =>
      match analyzeWith (visit opb) s1 with
      | none => none
      | some (b, s2) =>
        if a.modulus = 0 then
          some { s2 with modulus := wrap (a.remainder * b.modulus),
                         remainder := wrap (a.remainder * b.remainder) }
        else if b.modulus = 0 then
          some { s2 with modulus := wrap (b.remainder * a.modulus),
                         remainder := wrap (a.remainder * b.remainder) }
        else if a.remainder = 0 ∧ b.remainder = 0 then
          some { s2 with modulus := wrap (a.modulus * b.modulus), remainder := 0 }
        else if a.remainder = 0 then
          some { s2 with modulus := wrap (a.modulus * gcd b.modulus b.remainder), remainder := 0 }
        else if b.remainder = 0 then
          some { s2 with modulus := wrap (b.modulus * gcd a.modulus a.remainder), remainder := 0 }
        else
          some { s2 with modulus := gcd a.modulus b.modulus }
  | .Div _ _, self => some { self with remainder := 0, modulus := 1 }
  | .Mod opa opb, self =>
    match analyzeWith (visit opa) self with
    | none => none
    | some (a, s1) =>
      match analyzeWith (visit opb) s1 with
      | none => none
      | some (b, s2) =>
        let modulus := gcd a.modulus b.modulus
        let modulus := gcd modulus b.remainder
        some { s2 with modulus := modulus, remainder := mod a.remainder modulus }
  | .Min opa opb, self =>
    match analyzeWith (visit opa) self with
    | none => none
    | some (a, s1) =>
      match analyzeWith (visit opb) s1 with
      | none => none
      | some (b, s2) =>
        match unify_alternatives a b with
        | none => none
        | some r => some { s2 with modulus := r.modulus, remainder := r.remainder }
  | .Max opa opb, self =>
    match analyzeWith (visit opa) self with
    | none => none
    | some (a, s1) =>
      match analyzeWith (visit opb) s1 with
      | none => none
      | some (b, s2) =>
        match unify_alternatives a b with
        | none => none
        | some r => some { s2 with modulus := r.modulus, remainder := r.remainder }
  | .EQ _ _, _ => none
  | .NE _ _, _ => none
  | .LT _ _, _ => none
  | .LE _ _, _ => none
  | .GT _ _, _ => none
  | .GE _ _, _ => none
  | .And _ _, _ => none
  | .Or _ _, _ => none
  | .Not _, _ => none
  | .Select _ true_value false_value, self =>
    match analyzeWith (visit true_value) self with
    | none => none
    | some (a, s1) =>
      match analyzeWith (visit false_value) s1 with
      | none => none
      | some (b, s2) =>
        match unify_alternatives a b with
        | none => none
        | some r => some { s2 with modulus := r.modulus, remainder := r.remainder }
  | .Load _ _, self => some { self with modulus := 1, remainder := 0 }
  | .Ramp _ _, _ => none
  | .Broadcast _, _ => none
  | .Call _, self => some { self with modulus := 1, remainder := 0 }
  | .Let name value body, self =>
    match analyzeWith (visit value) self with
    | none => none
    | some (val, s1) =>
      match analyzeWith (visit body) { s1 with scope := s1.scope.push name val } with
      | none => none
      | some (val, s2) =>
        some { s2 with scope := s2.scope.pop name, modulus := val.modulus, remainder := val.remainder }
  | .LetStmt, _ => none
  | .PrintStmt, _ => none
  | .AssertStmt, _ => none
  | .Pipeline, _ => none
  | .For, _ => none
  | .Store, _ => none
  | .Provide, _ => none
  | .Allocate, _ => none
  | .Realize, _ => none
  | .Block, _ => none

/-- The method `analyze` (lines 88-91): dispatch to the `visit` overload of the node, then
return `ModulusRemainder(modulus, remainder)`. -/
def ComputeModulusRemainder.analyze (e : Expr) (self : ComputeModulusRemainder) :
    Option (ModulusRemainder × ComputeModulusRemainder) :=
  analyzeWith (visit e) self

/-- A newly constructed analyzer `ComputeModulusRemainder mr;` whose scope is `scope`. C++ leaves
the two `int` fields indeterminate; they are set to `0` here, and `visit_fields_irrelevant`
shows that no result depends on them. -/
def ComputeModulusRemainder.fresh (scope : Scope) : ComputeModulusRemainder :=
  { modulus := 0, remainder := 0, scope := scope }

/-- The front end `modulus_remainder(Expr e, const Scope<ModulusRemainder> &scope)`
(lines 62-66). -/
def modulus_remainder_in (e : Expr) (scope : Scope) : Option ModulusRemainder :=
  match (ComputeModulusRemainder.fresh scope).analyze e with
  | none => none
  | some (r, _) => some r

/-- The front end `modulus_remainder(Expr e)` (lines 57-60): the scope of a new analyzer is
empty. -/
def modulus_remainder (e : Expr) : Option ModulusRemainder :=
  match (ComputeModulusRemainder.fresh []).analyze e with
  | none => none
  | some (r, _) => some r

/-- The function `reduce_expr_modulo` (lines 70-86). The outer `Option` is `none` when the
analysis aborts; the inner one is `none` for the return value `false` and `some r` for `true`
with `*remainder = r`. The caller passes `modulus ≠ 0` (the C++ `%` by zero is undefined). -/
def reduce_expr_modulo (expr : Expr) (modulus : Int) : Option (Option Int) :=
  match modulus_remainder expr with
  | none => none
  | some result =>
    if result.modulus.tmod modulus = 0 then some (some (result.remainder.tmod modulus))
    else some none

/-- The function `check` of the self test (lines 94-105): `true` when the analysis of `e`
returns exactly `(m, r)`, `false` where the source prints the mismatch and exits. -/
def check (e : Expr) (m r : Int) : Bool :=
  match modulus_remainder e with
  | none => false
  | some result => !(result.modulus != m || result.remainder != r)

/-- The seven calls of `check` in `modulus_remainder_test` (lines 108-121), with
`x = Variable "x"` and `y = Variable "y"`: `true` when every check passes. An `int` operand
of an arithmetic operator is the literal `IntImm`, and `max` builds a `Max` node. -/
def modulus_remainder_test : Bool :=
  let x := Expr.Variable "x"
  let y := Expr.Variable "y"
  check (.Add (.Add (.Mul (.IntImm 30) x) (.IntImm 3)) (.Add (.Mul (.IntImm 40) y) (.IntImm 2))) 10 5
  && check (.Mul (.Add (.Mul (.IntImm 6) x) (.IntImm 3)) (.Add (.Mul (.IntImm 4) y) (.IntImm 1))) 2 1
  && check (.Max (.Sub (.Mul (.IntImm 30) x) (.IntImm 24)) (.Add (.Mul (.IntImm 40) y) (.IntImm 31))) 5 1
  && check (.Sub (.Mul (.IntImm 10) x) (.Mul (.IntImm 33) y)) 1 0
  && check (.Sub (.Mul (.IntImm 10) x) (.Mul (.IntImm 35) y)) 5 0
  && check (.IntImm 123) 0 123
  && check (.Let "y" (.Add (.Mul x (.IntImm 3)) (.IntImm 4)) (.Add (.Mul y (.IntImm 3)) (.IntImm 4))) 9 7

/-! ## Vocabulary of the properties

The predicates below are not part of the program: they state the data-model invariants and the
meaning of an abstract value, so that the theorems can speak about them. -/

/-- The data-model invariants of an abstract value: the modulus is not negative, modulus `1`
goes with remainder `0`, and a modulus above `1` goes with a remainder in `[0, modulus)`. -/
def ModulusRemainder.WellFormed (a : ModulusRemainder) : Prop :=
  0 ≤ a.modulus ∧ (a.modulus = 1 → a.remainder = 0) ∧
    (1 < a.modulus → 0 ≤ a.remainder ∧ a.remainder < a.modulus)

instance (a : ModulusRemainder) : Decidable a.WellFormed :=
  inferInstanceAs (Decidable (0 ≤ a.modulus ∧ (a.modulus = 1 → a.remainder = 0) ∧
    (1 < a.modulus → 0 ≤ a.remainder ∧ a.remainder < a.modulus)))

/-- The integer `v` is described by the abstract value `a`: `v` is the remainder when the
modulus is `0`, and the modulus divides `v - remainder` otherwise. -/
def ModulusRemainder.Describes (a : ModulusRemainder) (v : Int) : Prop :=
  if a.modulus = 0 then v = a.remainder else a.modulus ∣ v - a.remainder

instance (a : ModulusRemainder) (v : Int) : Decidable (a.Describes v) :=
  inferInstanceAs (Decidable (if a.modulus = 0 then v = a.remainder else a.modulus ∣ v - a.remainder))

/-- The expressions built only from the integer kinds that the analyzer accepts: `IntImm`,
`Variable`, `Cast`, `Add`, `Sub`, `Mul`, `Div`, `Mod`, `Min`, `Max`, `Select` (whatever its
condition), `Load`, `Call` and `Let`. The operands of `Cast`, `Div`, `Load` and `Call` are
never visited and are not constrained. -/
def Expr.InDomain : Expr → Bool
  | .IntImm _ => true
  | .Variable _ => true
  | .Cast _ => true
  | .Div _ _ => true
  | .Load _ _ => true
  | .Call _ => true
  | .Add a b => a.InDomain && b.InDomain
  | .Sub a b => a.InDomain && b.InDomain
  | .Mul a b => a.InDomain && b.InDomain
  | .Mod a b => a.InDomain && b.InDomain
  | .Min a b => a.InDomain && b.InDomain
  | .Max a b => a.InDomain && b.InDomain
  | .Select _ t f => t.InDomain && f.InDomain
  | .Let _ v b => v.InDomain && b.InDomain
  | _ => false

/-- The value of an integer expression over unbounded integers, for an assignment `σ` of the
variables. The kinds that the analyzer does not look into (`Cast`, `Div`, `Load`, `Call`) and the
condition of a `Select` take their value from the oracle `ω`, which sees the assignment in
force at the node, so that one condition can come out differently under different `Let`
bindings; `Mod` is the remainder `%` of `Int`, which is `a - b * q` for an integer `q`. The
other kinds have no integer value and are given `0`. -/
def Expr.eval (σ : String → Int) (ω : (String → Int) → Expr → Int) : Expr → Int
  | .IntImm value => value
  | .Variable name => σ name
  | .Add a b => eval σ ω a + eval σ ω b
  | .Sub a b => eval σ ω a - eval σ ω b
  | .Mul a b => eval σ ω a * eval σ ω b
  | .Mod a b => eval σ ω a % eval σ ω b
  | .Min a b => min (eval σ ω a) (eval σ ω b)
  | .Max a b => max (eval σ ω a) (eval σ ω b)
  | .Select c t f => if ω σ c ≠ 0 then eval σ ω t else eval σ ω f
  | .Let name value body => eval (Function.update σ name (eval σ ω value)) ω body
  | .Cast value => ω σ (.Cast value)
  | .Div a b => ω σ (.Div a b)
  | .Load name index => ω σ (.Load name index)
  | .Call name => ω σ (.Call name)
  | _ => 0

/-- The node kinds whose `visit` overload is `assert(false && "modulus_remainder of ...")`:
`FloatImm`, the vector constructors, the comparisons, the boolean connectives and the
statement kinds. -/
def Expr.Rejected : Expr → Bool
  | .FloatImm => true
  | .EQ _ _ => true
  | .NE _ _ => true
  | .LT _ _ => true
  | .LE _ _ => true
  | .GT _ _ => true
  | .GE _ _ => true
  | .And _ _ => true
  | .Or _ _ => true
  | .Not _ => true
  | .Ramp _ _ => true
  | .Broadcast _ => true
  | .LetStmt => true
  | .PrintStmt => true
  | .AssertStmt => true
  | .Pipeline => true
  | .For => true
  | .Store => true
  | .Provide => true
  | .Allocate => true
  | .Realize => true
  | .Block => true
  | _ => false

/-- A node of a rejected kind stands where the traversal goes: it is the root, or it is found,
at any depth, through operands of `Add`, `Sub`, `Mul`, `Mod`, `Min` and `Max`, value branches
of `Select`, and values and bodies of `Let`. -/
def Expr.HasRejected : Expr → Bool
  | .Add a b => a.HasRejected || b.HasRejected
  | .Sub a b => a.HasRejected || b.HasRejected
  | .Mul a b => a.HasRejected || b.HasRejected
  | .Mod a b => a.HasRejected || b.HasRejected
  | .Min a b => a.HasRejected || b.HasRejected
  | .Max a b => a.HasRejected || b.HasRejected
  | .Select _ t f => t.HasRejected || f.HasRejected
  | .Let _ v b => v.HasRejected || b.HasRejected
  | e => e.Rejected

/-- The variable-free expressions built only from `IntImm`, `Add`, `Sub` and `Mul`. -/
def Expr.ConstArith : Expr → Bool
  | .IntImm _ => true
  | .Add a b => a.ConstArith && b.ConstArith
  | .Sub a b => a.ConstArith && b.ConstArith
  | .Mul a b => a.ConstArith && b.ConstArith
  | _ => false

/-- The integer `x` is a value of the type `int`. -/
def FitsInt (x : Int) : Prop :=
  -2147483648 ≤ x ∧ x < 2147483648

instance (x : Int) : Decidable (FitsInt x) :=
  inferInstanceAs (Decidable (-2147483648 ≤ x ∧ x < 2147483648))

/-- The two `int` operations of `unify_alternatives a b` do not overflow: the difference of
the remainders and its negation are values of `int`. -/
def UnifyFits (a b : ModulusRemainder) : Prop :=
  FitsInt (a.remainder - b.remainder) ∧ FitsInt (-(a.remainder - b.remainder))

instance (a b : ModulusRemainder) : Decidable (UnifyFits a b) :=
  inferInstanceAs (Decidable (FitsInt (a.remainder - b.remainder) ∧
    FitsInt (-(a.remainder - b.remainder))))

/-- The products that `Mul` computes for the operand values `a` and `b`, in the branch that
it takes, do not overflow. The last branch computes no product. -/
def MulFits (a b : ModulusRemainder) : Prop :=
  if a.modulus = 0 then FitsInt (a.remainder * b.modulus) ∧ FitsInt (a.remainder * b.remainder)
  else if b.modulus = 0 then
    FitsInt (b.remainder * a.modulus) ∧ FitsInt (a.remainder * b.remainder)
  else if a.remainder = 0 ∧ b.remainder = 0 then FitsInt (a.modulus * b.modulus)
  else if a.remainder = 0 then FitsInt (a.modulus * gcd b.modulus b.remainder)
  else if b.remainder = 0 then FitsInt (b.modulus * gcd a.modulus a.remainder)
  else True

instance (a b : ModulusRemainder) : Decidable (MulFits a b) :=
  inferInstanceAs (Decidable (
    if a.modulus = 0 then FitsInt (a.remainder * b.modulus) ∧ FitsInt (a.remainder * b.remainder)
    else if b.modulus = 0 then
      FitsInt (b.remainder * a.modulus) ∧ FitsInt (a.remainder * b.remainder)
    else if a.remainder = 0 ∧ b.remainder = 0 then FitsInt (a.modulus * b.modulus)
    else if a.remainder = 0 then FitsInt (a.modulus * gcd b.modulus b.remainder)
    else if b.remainder = 0 then FitsInt (b.modulus * gcd a.modulus a.remainder)
    else True))

/-- Every sum, difference and product inside the expression has a value, over unbounded
integers, that is a value of `int`. -/
def Expr.ValuesFit (σ : String → Int) (ω : (String → Int) → Expr → Int) : Expr → Bool
  | .Add a b => ValuesFit σ ω a && ValuesFit σ ω b && decide (FitsInt (eval σ ω (.Add a b)))
  | .Sub a b => ValuesFit σ ω a && ValuesFit σ ω b && decide (FitsInt (eval σ ω (.Sub a b)))
  | .Mul a b => ValuesFit σ ω a && ValuesFit σ ω b && decide (FitsInt (eval σ ω (.Mul a b)))
  | _ => true

/-- The scope agrees with the assignment `σ`: every binding that a lookup can return is well
formed and describes the value that `σ` gives to its name. -/
def Scope.Agrees (s : Scope) (σ : String → Int) : Prop :=
  ∀ name mr, s.get name = some mr → mr.WellFormed ∧ mr.Describes (σ name)

/-! ## Lemmas on `wrap`, `gcd` and `mod` -/

theorem wrap_of_fits {x : Int} (h : FitsInt x) : wrap x = x := by
  unfold FitsInt at h
  unfold wrap
  omega

theorem wrap_zero : wrap 0 = 0 := by decide


theorem natAbs_tmod (a b : Int) : (a.tmod b).natAbs = a.natAbs % b.natAbs := by
  cases a <;> cases b <;> simp [Int.tmod] <;> rfl

/-- With more fuel than `|b|` the Euclidean loop exits, and it returns the greatest common
divisor up to sign; the result is not negative when the inputs are not. -/
theorem gcdLoop_spec (fuel : Nat) : ∀ a b : Int, b.natAbs < fuel →
    ∃ g, gcdLoop fuel a b = some g ∧ g.natAbs = Int.gcd a b ∧ (0 ≤ a → 0 ≤ b → 0 ≤ g) := by
  induction fuel with
  | zero => intro a b h; omega
  | succ n ih =>
    intro a b h
    by_cases hb : b = 0
    · subst hb
      exact ⟨a, by simp [gcdLoop], by simp, fun ha _ => ha⟩
    · have hlt : (a.tmod b).natAbs < n := by
        rw [natAbs_tmod]
        have : a.natAbs % b.natAbs < b.natAbs := Nat.mod_lt _ (by omega)
        omega
      obtain ⟨g, hg, habs, hpos⟩ := ih b (a.tmod b) hlt
      refine ⟨g, by simp [gcdLoop, hb, hg], ?_, ?_⟩
      · rw [habs, Int.gcd_def, Int.gcd_def, natAbs_tmod, Nat.gcd_comm, ← Nat.gcd_rec, Nat.gcd_comm]
      · intro ha hb0
        exact hpos hb0 (Int.tmod_nonneg b ha)

theorem gcdLoop_isSome (a b : Int) : ∃ g, gcdLoop (b.natAbs + 1) a b = some g := by
  obtain ⟨g, hg, _⟩ := gcdLoop_spec (b.natAbs + 1) a b (by omega)
  exact ⟨g, hg⟩

theorem gcd_natAbs (a b : Int) : (gcd a b).natAbs = Int.gcd a b := by
  unfold gcd
  split
  · obtain ⟨g, hg, habs, _⟩ := gcdLoop_spec (a.natAbs + 1) b a (by omega)
    simp [hg, habs, Int.gcd_comm]
  · obtain ⟨g, hg, habs, _⟩ := gcdLoop_spec (b.natAbs + 1) a b (by omega)
    simp [hg, habs]

theorem gcd_nonneg {a b : Int} (ha : 0 ≤ a) (hb : 0 ≤ b) : 0 ≤ gcd a b := by
  unfold gcd
  split
  · obtain ⟨g, hg, _, hpos⟩ := gcdLoop_spec (a.natAbs + 1) b a (by omega)
    simp [hg, hpos hb ha]
  · obtain ⟨g, hg, _, hpos⟩ := gcdLoop_spec (b.natAbs + 1) a b (by omega)
    simp [hg, hpos ha hb]

theorem gcd_eq {a b : Int} (ha : 0 ≤ a) (hb : 0 ≤ b) : gcd a b = Int.gcd a b := by
  have h := gcd_natAbs a b
  have h0 := gcd_nonneg ha hb
  omega

theorem gcd_dvd_left (a b : Int) : gcd a b ∣ a := by
  rw [← Int.natAbs_dvd, gcd_natAbs]
  exact Int.gcd_dvd_left

theorem gcd_dvd_right (a b : Int) : gcd a b ∣ b := by
  rw [← Int.natAbs_dvd, gcd_natAbs]
  exact Int.gcd_dvd_right

theorem dvd_gcd {a b d : Int} (ha : d ∣ a) (hb : d ∣ b) : d ∣ gcd a b := by
  rw [← Int.dvd_natAbs, gcd_natAbs]
  exact Int.dvd_gcd ha hb

theorem gcd_eq_zero {a b : Int} (h : gcd a b = 0) : a = 0 ∧ b = 0 := by
  have h1 := gcd_natAbs a b
  rw [h] at h1
  exact Int.gcd_eq_zero_iff.1 h1.symm

theorem mod_zero (a : Int) : mod a 0 = a := by
  simp [mod]

theorem mod_dvd (a m : Int) : m ∣ a - mod a m := by
  unfold mod
  by_cases hm : m = 0
  · simp [hm]
  · have h := Int.tmod_add_tdiv a m
    simp only [hm, if_false]
    split
    · exact ⟨a.tdiv m - 1, by linarith⟩
    · exact ⟨a.tdiv m, by linarith⟩

theorem mod_range (a : Int) {m : Int} (hm : 0 < m) : 0 ≤ mod a m ∧ mod a m < m := by
  unfold mod
  have h1 := Int.tmod_lt_of_pos a hm
  have h2 := natAbs_tmod a m
  have h3 : a.natAbs % m.natAbs < m.natAbs := Nat.mod_lt _ (by omega)
  simp only [show m ≠ 0 by omega, if_false]
  split <;> constructor <;> omega

theorem mod_pos (a : Int) {m : Int} (hm : 0 < m) : mod a m = a % m := by
  obtain ⟨h0, h1⟩ := mod_range a hm
  obtain ⟨k, hk⟩ := mod_dvd a m
  have h2 : a = mod a m + m * k := by linarith
  rw [h2, Int.add_mul_emod_self_left, Int.emod_eq_of_lt h0 h1]
  exact h2 ▸ rfl

/-! ## Lemmas on the traversal -/

open ComputeModulusRemainder

theorem Scope.pop_push (s : Scope) (name : String) (v : ModulusRemainder) :
    (s.push name v).pop name = s := by
  simp [Scope.push, Scope.pop]

theorem analyzeWith_some {v : ComputeModulusRemainder → Option ComputeModulusRemainder}
    {s t : ComputeModulusRemainder} {r : ModulusRemainder}
    (h : analyzeWith v s = some (r, t)) : v s = some t ∧ r = ⟨t.modulus, t.remainder⟩ := by
  unfold analyzeWith at h
  split at h
  · simp at h
  · rename_i s0 h0
    simp only [Option.some.injEq, Prod.mk.injEq] at h
    obtain ⟨h1, h2⟩ := h
    subst h2
    exact ⟨h0, h1.symm⟩

/-- A visit that returns leaves the scope as it found it. -/
theorem visit_scope (e : Expr) : ∀ s s', visit e s = some s' → s'.scope = s.scope := by
  induction e with
  | Let name value body ihv ihb =>
    intro s s' h
    simp only [visit] at h
    split at h
    · simp at h
    rename_i val s1 h1
    split at h
    · simp at h
    rename_i val2 s2 h2
    simp only [Option.some.injEq] at h
    subst h
    have e1 := ihv _ _ (analyzeWith_some h1).1
    have e2 := ihb _ _ (analyzeWith_some h2).1
    simp only [] at e2
    simp only [e2, Scope.pop_push, e1]
  | Add a b iha ihb | Sub a b iha ihb | Mul a b iha ihb | Mod a b iha ihb | Min a b iha ihb
  | Max a b iha ihb | Select c a b _ iha ihb =>
    intro s s' h
    simp only [visit] at h
    split at h
    · simp at h
    rename_i ra s1 h1
    split at h
    · simp at h
    rename_i rb s2 h2
    have e1 := iha _ _ (analyzeWith_some h1).1
    have e2 := ihb _ _ (analyzeWith_some h2).1
    (repeat' split at h) <;> simp at h <;> subst h <;> simp [e1, e2]
  | _ =>
    intro s s' h
    simp only [visit] at h
    (repeat' split at h) <;> simp at h <;> subst h <;> rfl

/-- The values that the fields `modulus` and `remainder` hold when a visit starts have no
effect on it: every visit that returns has written both fields, the last branch of `Mul`
after the visits of its operands. -/
theorem visit_fields_irrelevant (e : Expr) : ∀ (s : ComputeModulusRemainder) (m r : Int),
    visit e { s with modulus := m, remainder := r } = visit e s := by
  induction e with
  | Let name value body ihv ihb =>
    intro s m r
    simp only [visit, analyzeWith]
    rw [ihv s m r]
  | Add a b iha ihb | Sub a b iha ihb | Mul a b iha ihb | Mod a b iha ihb | Min a b iha ihb
  | Max a b iha ihb | Select c a b _ iha ihb =>
    intro s m r
    simp only [visit, analyzeWith]
    rw [iha s m r]
  | _ =>
    intro s m r
    simp only [visit]

/-- The pair that `analyze` returns depends on the analyzer state through the scope only: it is
the pair that a new analyzer with the same scope returns. With `visit_scope`, the two
analyses that the source passes as arguments of one call therefore give the same pairs in
either order of evaluation. -/
theorem analyze_result_eq (e : Expr) (s : ComputeModulusRemainder) :
    (s.analyze e).map Prod.fst = modulus_remainder_in e s.scope := by
  have h := visit_fields_irrelevant e (fresh s.scope) s.modulus s.remainder
  simp only [fresh] at h
  unfold modulus_remainder_in analyze analyzeWith
  simp only [fresh, ← h]
  cases visit e s <;> rfl

/-- Coarsening: a value described by `a` is described by every pair whose modulus is not zero
and divides both the modulus of `a` and the difference of the two remainders. -/
theorem describes_coarsen {a : ModulusRemainder} {v m r : Int} (hv : a.Describes v)
    (hm : m ∣ a.modulus) (hr : m ∣ a.remainder - r) (h0 : m ≠ 0) :
    ModulusRemainder.Describes ⟨m, r⟩ v := by
  unfold ModulusRemainder.Describes at hv ⊢
  simp only [h0, if_false]
  have hva : m ∣ v - a.remainder := by
    split at hv
    · subst hv; simp
    · exact Int.dvd_trans hm hv
  have : v - r = (v - a.remainder) + (a.remainder - r) := by ring
  rw [this]
  exact Int.dvd_add hva hr

/-! ## Lemmas on the abstract values -/

theorem describes_dvd {a : ModulusRemainder} {v : Int} (hv : a.Describes v) :
    a.modulus ∣ v - a.remainder := by
  unfold ModulusRemainder.Describes at hv
  split at hv
  · subst hv; simp
  · exact hv

theorem describes_const {a : ModulusRemainder} {v : Int} (hv : a.Describes v)
    (h : a.modulus = 0) : v = a.remainder := by
  simpa [ModulusRemainder.Describes, h] using hv

theorem describes_of_dvd {m r v : Int} (h : m ∣ v - r) (h0 : m ≠ 0) :
    ModulusRemainder.Describes ⟨m, r⟩ v := by
  simp [ModulusRemainder.Describes, h0, h]

/-- On well-formed inputs whose difference of remainders does not overflow, the assertion of
`unify_alternatives` holds; the result has the
modulus `m = gcd(|a.r - b.r|, gcd(a.m, b.m))`, is well formed and describes every integer that
one of the inputs describes. -/
theorem unify_alternatives_spec (a b : ModulusRemainder)
    (ha : a.WellFormed) (hb : b.WellFormed) (hf : UnifyFits a b) :
    ∃ m, m = gcd (if a.remainder - b.remainder < 0 then -(a.remainder - b.remainder)
        else a.remainder - b.remainder) (gcd a.modulus b.modulus) ∧
      mod a.remainder m = mod b.remainder m ∧
      unify_alternatives a b = some ⟨m, mod a.remainder m⟩ ∧
      ModulusRemainder.WellFormed ⟨m, mod a.remainder m⟩ ∧
      (∀ v, a.Describes v → ModulusRemainder.Describes ⟨m, mod a.remainder m⟩ v) ∧
      (∀ v, b.Describes v → ModulusRemainder.Describes ⟨m, mod a.remainder m⟩ v) := by
  obtain ⟨ha0, ha1, ha2⟩ := ha
  obtain ⟨hb0, hb1, hb2⟩ := hb
  refine ⟨_, rfl, ?_⟩
  unfold unify_alternatives
  simp only [wrap_of_fits hf.1, wrap_of_fits hf.2]
  generalize hd : (if a.remainder - b.remainder < 0 then -(a.remainder - b.remainder)
    else a.remainder - b.remainder) = d
  have hd0 : 0 ≤ d := by subst hd; split <;> omega
  have hdd : d ∣ a.remainder - b.remainder := by
    subst hd; split
    · exact (Int.neg_dvd).2 (Int.dvd_refl _)
    · exact Int.dvd_refl _
  generalize hg : gcd a.modulus b.modulus = g
  have hg0 : 0 ≤ g := hg ▸ gcd_nonneg ha0 hb0
  have hga : g ∣ a.modulus := hg ▸ gcd_dvd_left _ _
  have hgb : g ∣ b.modulus := hg ▸ gcd_dvd_right _ _
  generalize hm : gcd d g = m
  have hm0 : 0 ≤ m := hm ▸ gcd_nonneg hd0 hg0
  have hmd : m ∣ a.remainder - b.remainder := Int.dvd_trans (hm ▸ gcd_dvd_left _ _) hdd
  have hma : m ∣ a.modulus := Int.dvd_trans (hm ▸ gcd_dvd_right _ _) hga
  have hmb : m ∣ b.modulus := Int.dvd_trans (hm ▸ gcd_dvd_right _ _) hgb
  by_cases hz : m = 0
  · subst hz
    have hab : a.remainder = b.remainder := by
      have := zero_dvd_iff.1 hmd
      omega
    have hamz : a.modulus = 0 := zero_dvd_iff.1 hma
    have hbmz : b.modulus = 0 := zero_dvd_iff.1 hmb
    refine ⟨by simp [mod_zero, hab], by simp [mod_zero, hab], ?_, ?_, ?_⟩
    · exact ⟨le_refl _, by simp, by simp⟩
    · intro v hv
      simpa [ModulusRemainder.Describes, hamz, mod_zero] using hv
    · intro v hv
      simpa [ModulusRemainder.Describes, hbmz, hab, mod_zero] using hv
  · have hmpos : 0 < m := by omega
    have hra := mod_range a.remainder hmpos
    have hmod : mod a.remainder m = mod b.remainder m := by
      rw [mod_pos _ hmpos, mod_pos _ hmpos]
      have h : m ∣ b.remainder - a.remainder := by
        have := (Int.dvd_neg).2 hmd
        simpa using this
      exact Int.ModEq.eq (Int.modEq_iff_dvd.2 h)
    refine ⟨hmod, by simp [hmod], ?_, ?_, ?_⟩
    · refine ⟨hm0, ?_, fun _ => hra⟩
      intro h1
      simp only at h1
      have := hra
      simp only [h1] at this ⊢
      omega
    · intro v hv
      exact describes_coarsen hv hma (mod_dvd _ _) hz
    · intro v hv
      refine describes_coarsen hv hmb ?_ hz
      have h1 := mod_dvd a.remainder m
      have : b.remainder - mod a.remainder m
          = (a.remainder - mod a.remainder m) - (a.remainder - b.remainder) := by ring
      rw [this]
      exact Int.dvd_sub h1 hmd

theorem gcd_self_nonneg {a : Int} (ha : 0 ≤ a) : gcd a a = a := by
  rw [gcd_eq ha ha, Int.gcd_self]
  omega

theorem gcd_zero_left_nonneg {a : Int} (ha : 0 ≤ a) : gcd 0 a = a := by
  rw [gcd_eq (le_refl 0) ha, Int.gcd_zero_left]
  omega

theorem gcd_zero_right_nonneg {a : Int} (ha : 0 ≤ a) : gcd a 0 = a := by
  rw [gcd_eq ha (le_refl 0), Int.gcd_zero_right]
  omega

theorem mod_of_wellFormed {a : ModulusRemainder} (ha : a.WellFormed) :
    mod a.remainder a.modulus = a.remainder := by
  obtain ⟨h0, h1, h2⟩ := ha
  by_cases hz : a.modulus = 0
  · rw [hz, mod_zero]
  · have hpos : 0 < a.modulus := by omega
    rw [mod_pos _ hpos]
    by_cases h : a.modulus = 1
    · rw [h1 h, h]; rfl
    · obtain ⟨hl, hu⟩ := h2 (by omega)
      exact Int.emod_eq_of_lt hl hu

theorem gcd_zero_zero : gcd 0 0 = 0 := by decide

/-! ## Lemmas on the scope and on fragments of the IR -/

theorem Scope.Agrees.push {s : Scope} {σ : String → Int} (hs : s.Agrees σ) (name : String)
    {val : ModulusRemainder} {x : Int} (hw : val.WellFormed) (hd : val.Describes x) :
    (s.push name val).Agrees (Function.update σ name x) := by
  intro n mr h
  simp only [Scope.push, Scope.get] at h
  split at h
  · rename_i heq
    simp only [Option.some.injEq] at h
    subst h
    subst heq
    simp [hw, hd]
  · rename_i hne
    have hne' : n ≠ name := fun e => hne e.symm
    rw [Function.update_noteq hne']
    exact hs n mr h

/-- A node of a rejected kind in the way of the traversal makes the visit abort. -/
theorem visit_none_of_hasRejected (e : Expr) :
    ∀ s : ComputeModulusRemainder, e.HasRejected = true → visit e s = none := by
  induction e with
  | Add a b iha ihb | Sub a b iha ihb | Mul a b iha ihb | Mod a b iha ihb | Min a b iha ihb
  | Max a b iha ihb | Select c a b _ iha ihb =>
    intro s h
    simp only [Expr.HasRejected, Bool.or_eq_true] at h
    simp only [visit, analyzeWith]
    cases hv : visit a s with
    | none => rfl
    | some s1 =>
      rcases h with h | h
      · rw [iha s h] at hv; cases hv
      · simp only [ihb s1 h]
  | Let name value body ihv ihb =>
    intro s h
    simp only [Expr.HasRejected, Bool.or_eq_true] at h
    simp only [visit, analyzeWith]
    cases hv : visit value s with
    | none => rfl
    | some s1 =>
      rcases h with h | h
      · rw [ihv s h] at hv; cases hv
      · simp only [ihb _ h]
  | _ =>
    intro s h
    first
      | rfl
      | (simp [Expr.HasRejected, Expr.Rejected] at h)

/-- A variable-free expression of `IntImm`, `Add`, `Sub` and `Mul` whose sums, differences and
products are values of `int` is analysed to the constant that is its value. -/
theorem visit_constArith (e : Expr) (σ : String → Int) (ω : (String → Int) → Expr → Int) :
    ∀ s : ComputeModulusRemainder, e.ConstArith = true → e.ValuesFit σ ω = true →
      visit e s = some ⟨0, e.eval σ ω, s.scope⟩ := by
  induction e with
  | IntImm value => intro s _ _; rfl
  | Add a b iha ihb | Sub a b iha ihb | Mul a b iha ihb =>
    intro s h hf
    simp only [Expr.ConstArith, Bool.and_eq_true] at h
    simp only [Expr.ValuesFit, Bool.and_eq_true, decide_eq_true_eq, Expr.eval] at hf
    obtain ⟨⟨hfa, hfb⟩, hfit⟩ := hf
    simp [visit, analyzeWith, iha s h.1 hfa, ihb _ h.2 hfb, gcd_zero_zero, mod_zero, Expr.eval,
      wrap_zero, wrap_of_fits hfit]
  | _ => intro s h; simp [Expr.ConstArith] at h

/-- C1 (soundness of the analysis) does not hold of the code: `(4*x + 3) * (4*y + 3)` is built
from the accepted integer kinds and is analysed, from the empty scope, to `(4, 3)`, because the
last branch of `Mul` leaves the field `remainder` at the remainder of the right operand; yet
for every assignment of the variables the value of the expression minus `3` is not a multiple
of `4` (the value is `1` modulo `4`). -/
theorem soundness_fails_in_mul_fallback :
    (Expr.Mul (.Add (.Mul (.IntImm 4) (.Variable "x")) (.IntImm 3))
        (.Add (.Mul (.IntImm 4) (.Variable "y")) (.IntImm 3))).InDomain = true ∧
    modulus_remainder (.Mul (.Add (.Mul (.IntImm 4) (.Variable "x")) (.IntImm 3))
        (.Add (.Mul (.IntImm 4) (.Variable "y")) (.IntImm 3))) = some ⟨4, 3⟩ ∧
    ∀ (σ : String → Int) (ω : (String → Int) → Expr → Int),
      ¬ ((4 : Int) ∣ (Expr.Mul (.Add (.Mul (.IntImm 4) (.Variable "x")) (.IntImm 3))
        (.Add (.Mul (.IntImm 4) (.Variable "y")) (.IntImm 3))).eval σ ω - 3) := by
  refine ⟨by decide, by decide, ?_⟩
  rintro σ ω ⟨k, hk⟩
  simp only [Expr.eval] at hk
  have h : 4 * (4 * (σ "x" * σ "y") + 3 * σ "x" + 3 * σ "y" + 1 - k) = -2 := by linarith
  generalize 4 * (σ "x" * σ "y") + 3 * σ "x" + 3 * σ "y" + 1 - k = t at h
  omega

/-- C2 (well-formed results) does not hold of the code: `(6*x + 3) * (4*y + 3)` is analysed to
`(2, 3)`, a remainder outside `[0, modulus)`, by the last branch of `Mul`; and `(-3) * x` is
analysed to `(-3, 0)`, a negative modulus, by the first branch of `Mul`. Both expressions are
built from the accepted integer kinds. -/
theorem wellformed_fails_in_mul :
    (Expr.Mul (.Add (.Mul (.IntImm 6) (.Variable "x")) (.IntImm 3))
        (.Add (.Mul (.IntImm 4) (.Variable "y")) (.IntImm 3))).InDomain = true ∧
    modulus_remainder (.Mul (.Add (.Mul (.IntImm 6) (.Variable "x")) (.IntImm 3))
        (.Add (.Mul (.IntImm 4) (.Variable "y")) (.IntImm 3))) = some ⟨2, 3⟩ ∧
    ¬ ModulusRemainder.WellFormed ⟨2, 3⟩ ∧
    (Expr.Mul (.IntImm (-3)) (.Variable "x")).InDomain = true ∧
    modulus_remainder (.Mul (.IntImm (-3)) (.Variable "x")) = some ⟨-3, 0⟩ ∧
    ¬ ModulusRemainder.WellFormed ⟨-3, 0⟩ := by
  decide

/-- C3 (no abort on in-domain input) does not hold of the code: `max((-2)*x + 1, -1)` is built
from the accepted integer kinds, its operands are analysed to `(-2, 1)` and `(0, -1)`, and
`unify_alternatives` fails its assertion `ra == rb` on these two values (`ra = 1`,
`rb = -3` for the modulus `-2`), so the analysis aborts. -/
theorem unify_assertion_fails_on_negative_modulus :
    (Expr.Max (.Add (.Mul (.IntImm (-2)) (.Variable "x")) (.IntImm 1)) (.IntImm (-1))).InDomain
      = true ∧
    modulus_remainder (.Add (.Mul (.IntImm (-2)) (.Variable "x")) (.IntImm 1)) = some ⟨-2, 1⟩ ∧
    modulus_remainder (.IntImm (-1)) = some ⟨0, -1⟩ ∧
    gcd 2 (gcd (-2) 0) = -2 ∧ mod 1 (-2) = 1 ∧ mod (-1) (-2) = -3 ∧
    unify_alternatives ⟨-2, 1⟩ ⟨0, -1⟩ = none ∧
    modulus_remainder (.Max (.Add (.Mul (.IntImm (-2)) (.Variable "x")) (.IntImm 1))
      (.IntImm (-1))) = none := by
  decide

/-- C4 (the fallback rule of `Mul`) does not hold of the code: the operands of
`(6*x + 2) * (6*y + 2)` are both analysed to `(6, 2)`, the rule of the claim gives
`(gcd(6, 6), mod(2 * 2, 6)) = (6, 4)`, and the code returns `(6, 2)`: the modulus of the rule
with the remainder of the right operand. -/
theorem mul_fallback_keeps_right_remainder :
    modulus_remainder (.Add (.Mul (.IntImm 6) (.Variable "x")) (.IntImm 2)) = some ⟨6, 2⟩ ∧
    modulus_remainder (.Add (.Mul (.IntImm 6) (.Variable "y")) (.IntImm 2)) = some ⟨6, 2⟩ ∧
    (gcd 6 6, mod (2 * 2) (gcd 6 6)) = (6, 4) ∧
    modulus_remainder (.Mul (.Add (.Mul (.IntImm 6) (.Variable "x")) (.IntImm 2))
        (.Add (.Mul (.IntImm 6) (.Variable "y")) (.IntImm 2))) = some ⟨6, 2⟩ := by
  decide

/-- C5: the seven scenarios of the self test return exactly the expected pairs from the empty
scope, with `x` and `y` free variables, and `modulus_remainder_test` passes all its checks. -/
theorem self_test_scenarios :
    modulus_remainder (.Add (.Add (.Mul (.IntImm 30) (.Variable "x")) (.IntImm 3))
        (.Add (.Mul (.IntImm 40) (.Variable "y")) (.IntImm 2))) = some ⟨10, 5⟩ ∧
    modulus_remainder (.Mul (.Add (.Mul (.IntImm 6) (.Variable "x")) (.IntImm 3))
        (.Add (.Mul (.IntImm 4) (.Variable "y")) (.IntImm 1))) = some ⟨2, 1⟩ ∧
    modulus_remainder (.Max (.Sub (.Mul (.IntImm 30) (.Variable "x")) (.IntImm 24))
        (.Add (.Mul (.IntImm 40) (.Variable "y")) (.IntImm 31))) = some ⟨5, 1⟩ ∧
    modulus_remainder (.Sub (.Mul (.IntImm 10) (.Variable "x"))
        (.Mul (.IntImm 33) (.Variable "y"))) = some ⟨1, 0⟩ ∧
    modulus_remainder (.Sub (.Mul (.IntImm 10) (.Variable "x"))
        (.Mul (.IntImm 35) (.Variable "y"))) = some ⟨5, 0⟩ ∧
    modulus_remainder (.IntImm 123) = some ⟨0, 123⟩ ∧
    modulus_remainder (.Let "y" (.Add (.Mul (.Variable "x") (.IntImm 3)) (.IntImm 4))
        (.Add (.Mul (.Variable "y") (.IntImm 3)) (.IntImm 4))) = some ⟨9, 7⟩ ∧
    modulus_remainder_test = true := by
  decide

/-- C7 (Let equivalence): when the analysis of `v` under the scope `S` returns `val`, the
analysis of `Let(x, v, body)` under `S` and the analysis of `body` under `S` extended with
`x → val` have the same outcome: both abort, or both return the same pair. -/
theorem let_equivalence (S : Scope) (x : String) (v body : Expr) (val : ModulusRemainder)
    (hv : modulus_remainder_in v S = some val) :
    modulus_remainder_in (.Let x v body) S = modulus_remainder_in body (S.push x val) := by
  unfold modulus_remainder_in analyze at hv ⊢
  split at hv
  · simp at hv
  rename_i r s1 h1
  simp only [Option.some.injEq] at hv
  subst hv
  obtain ⟨hs1, hr⟩ := analyzeWith_some h1
  have hsc : s1.scope = S := visit_scope _ _ _ hs1
  have hb := visit_fields_irrelevant body (fresh (S.push x r)) s1.modulus s1.remainder
  simp only [fresh] at hb hs1
  simp only [visit, analyzeWith, fresh, hs1, hsc, ← hr, hb]
  cases visit body { modulus := 0, remainder := 0, scope := S.push x r } <;> rfl

/-- C7 at the self test `let y = x*3 + 4 in y*3 + 4`: the value is analysed to `(3, 1)`, and
the `Let` gives `(9, 7)`, the result of `y*3 + 4` with `y` bound to `(3, 1)`. -/
theorem let_equivalence_witness :
    modulus_remainder_in (.Add (.Mul (.Variable "x") (.IntImm 3)) (.IntImm 4)) [] = some ⟨3, 1⟩ ∧
    modulus_remainder_in (.Let "y" (.Add (.Mul (.Variable "x") (.IntImm 3)) (.IntImm 4))
        (.Add (.Mul (.Variable "y") (.IntImm 3)) (.IntImm 4))) []
      = modulus_remainder_in (.Add (.Mul (.Variable "y") (.IntImm 3)) (.IntImm 4))
          (Scope.push [] "y" ⟨3, 1⟩) ∧
    modulus_remainder_in (.Add (.Mul (.Variable "y") (.IntImm 3)) (.IntImm 4))
        (Scope.push [] "y" ⟨3, 1⟩) = some ⟨9, 7⟩ :=
  ⟨by decide,
    let_equivalence [] "y" (.Add (.Mul (.Variable "x") (.IntImm 3)) (.IntImm 4))
      (.Add (.Mul (.Variable "y") (.IntImm 3)) (.IntImm 4)) ⟨3, 1⟩ (by decide),
    by decide⟩

/-- C8 (scope restoration): when the analysis of `e` started in the analyzer state `s`
returns, the scope of the analyzer is the scope of `s` again, so every binding pushed by a
`Let` of `e` has been popped and every binding of `s` is back in place. -/
theorem scope_restored (e : Expr) (s s' : ComputeModulusRemainder) (r : ModulusRemainder)
    (h : s.analyze e = some (r, s')) : s'.scope = s.scope :=
  visit_scope e s s' (analyzeWith_some h).1

/-- C8 on `let y = (let z = 7 in z) in y + 1`, analysed in a scope that already binds `y`
to `(4, 1)`: the result is `(0, 8)` and the scope is the initial one, the outer `y` included. -/
theorem scope_restored_witness :
    (ComputeModulusRemainder.fresh [("y", ⟨4, 1⟩)]).analyze
        (.Let "y" (.Let "z" (.IntImm 7) (.Variable "z")) (.Add (.Variable "y") (.IntImm 1)))
      = some (⟨0, 8⟩, ⟨0, 8, [("y", ⟨4, 1⟩)]⟩) ∧
    (⟨0, 8, [("y", ⟨4, 1⟩)]⟩ : ComputeModulusRemainder).scope
      = (ComputeModulusRemainder.fresh [("y", ⟨4, 1⟩)]).scope :=
  ⟨by decide,
    scope_restored (.Let "y" (.Let "z" (.IntImm 7) (.Variable "z")) (.Add (.Variable "y") (.IntImm 1)))
      (ComputeModulusRemainder.fresh [("y", ⟨4, 1⟩)]) ⟨0, 8, [("y", ⟨4, 1⟩)]⟩ ⟨0, 8⟩ (by decide)⟩

/-- C9 (range of `reduce_expr_modulo`) does not hold of the code: for the literal `-1` and
`m = 2` the function succeeds with the remainder `-1`, which is not in `[0, 2)`; the analysis
result is `(0, -1)` and the C++ `%` keeps the sign of the dividend. -/
theorem reduce_expr_modulo_negative_remainder :
    (Expr.IntImm (-1)).InDomain = true ∧
    modulus_remainder (.IntImm (-1)) = some ⟨0, -1⟩ ∧
    reduce_expr_modulo (.IntImm (-1)) 2 = some (some (-1)) ∧
    ¬ ((0 : Int) ≤ -1 ∧ (-1 : Int) < 2) := by
  decide

/-- C10: when the analysis of `e` returns `(M, R)`, `m > 0` and `v` is an integer described
by `(M, R)`, then `reduce_expr_modulo e m` returns, it reports failure exactly when
`M % m ≠ 0` (the C++ `%`), and when it succeeds with `r` then `m` divides `v - r`. -/
theorem reduce_expr_modulo_projects (e : Expr) (M R m v : Int)
    (hres : modulus_remainder e = some ⟨M, R⟩) (_hm : 0 < m)
    (hv : ModulusRemainder.Describes ⟨M, R⟩ v) :
    reduce_expr_modulo e m ≠ none ∧
    (reduce_expr_modulo e m = some none ↔ M.tmod m ≠ 0) ∧
    ∀ r, reduce_expr_modulo e m = some (some r) → m ∣ v - r := by
  unfold reduce_expr_modulo
  simp only [hres]
  by_cases h : M.tmod m = 0
  · simp only [h, if_true]
    refine ⟨by simp, by simp, ?_⟩
    intro r hr
    simp only [Option.some.injEq] at hr
    subst hr
    have hMd : m ∣ M := Int.dvd_of_tmod_eq_zero h
    have hR : m ∣ R - R.tmod m := ⟨R.tdiv m, by have := Int.tmod_add_tdiv R m; linarith⟩
    have hvR : m ∣ v - R := by
      unfold ModulusRemainder.Describes at hv
      split at hv
      · simp only at hv; subst hv; simp
      · exact Int.dvd_trans hMd hv
    have : v - R.tmod m = (v - R) + (R - R.tmod m) := by ring
    rw [this]
    exact Int.dvd_add hvR hR
  · simp [h]

/-- C10 on the examples of the source and of the specification: `16*x + 13` is analysed to
`(16, 13)`, which describes `29`, and `reduce_expr_modulo` with `m = 8` returns `5`, with
`8` dividing `29 - 5`; for `(30*x + 3) + (40*y + 2)` it returns `0` with `m = 5` and fails
with `m = 3`. -/
theorem reduce_expr_modulo_projects_witness :
    modulus_remainder (.Add (.Mul (.IntImm 16) (.Variable "x")) (.IntImm 13)) = some ⟨16, 13⟩ ∧
    reduce_expr_modulo (.Add (.Mul (.IntImm 16) (.Variable "x")) (.IntImm 13)) 8 = some (some 5) ∧
    (8 : Int) ∣ 29 - 5 ∧
    reduce_expr_modulo (.Add (.Add (.Mul (.IntImm 30) (.Variable "x")) (.IntImm 3))
        (.Add (.Mul (.IntImm 40) (.Variable "y")) (.IntImm 2))) 5 = some (some 0) ∧
    reduce_expr_modulo (.Add (.Add (.Mul (.IntImm 30) (.Variable "x")) (.IntImm 3))
        (.Add (.Mul (.IntImm 40) (.Variable "y")) (.IntImm 2))) 3 = some none :=
  ⟨by decide, by decide,
    (reduce_expr_modulo_projects (.Add (.Mul (.IntImm 16) (.Variable "x")) (.IntImm 13))
      16 13 8 29 (by decide) (by decide) (by decide)).2.2 5 (by decide),
    by decide, by decide⟩

/-- C11: for `a ≥ 0` and `b ≥ 0` the Euclidean loop of `gcd`, which runs on the larger and the
smaller input after the swap, exits within `|min a b| + 1` iterations with the mathematical
greatest common divisor, and `gcd a b` is that divisor; `gcd a 0 = a`, `gcd 0 b = b` and
`gcd 0 0 = 0`. -/
theorem gcd_correct_on_nonneg (a b : Int) (ha : 0 ≤ a) (hb : 0 ≤ b) :
    (∀ fuel, (min a b).natAbs < fuel →
      gcdLoop fuel (max a b) (min a b) = some (Int.gcd a b : Int)) ∧
    gcd a b = Int.gcd a b ∧ gcd a 0 = a ∧ gcd 0 b = b ∧ gcd 0 0 = 0 := by
  refine ⟨?_, gcd_eq ha hb, gcd_zero_right_nonneg ha, gcd_zero_left_nonneg hb, by decide⟩
  intro fuel hf
  obtain ⟨g, hg, habs, hpos⟩ := gcdLoop_spec fuel (max a b) (min a b) hf
  have h0 : 0 ≤ g := hpos (le_max_of_le_left ha) (le_min ha hb)
  have hgcd : Int.gcd (max a b) (min a b) = Int.gcd a b := by
    rcases le_total a b with h | h
    · rw [max_eq_right h, min_eq_left h, Int.gcd_comm]
    · rw [max_eq_left h, min_eq_right h]
  rw [hg, ← hgcd, ← habs]
  congr 1
  omega

/-- C11 at `a = 30`, `b = 40`: the greatest common divisor is `10`. -/
theorem gcd_correct_on_nonneg_witness :
    gcd 30 40 = 10 ∧
    ((∀ fuel, (min (30 : Int) 40).natAbs < fuel →
      gcdLoop fuel (max 30 40) (min 30 40) = some (Int.gcd 30 40 : Int)) ∧
    gcd 30 40 = Int.gcd 30 40 ∧ gcd 30 0 = 30 ∧ gcd 0 40 = 40 ∧ gcd 0 0 = 0) :=
  ⟨by decide, gcd_correct_on_nonneg 30 40 (by decide) (by decide)⟩

/-- C12: `mod a 0 = a` for every integer `a`, negative ones included, and for `m > 0` the
result `r = mod a m` satisfies `0 ≤ r < m` and `m` divides `a - r`. -/
theorem mod_on_nonneg_modulus (a m : Int) (hm : 0 < m) :
    mod a 0 = a ∧ 0 ≤ mod a m ∧ mod a m < m ∧ m ∣ a - mod a m :=
  ⟨mod_zero a, (mod_range a hm).1, (mod_range a hm).2, mod_dvd a m⟩

/-- C12 at `a = -7`, `m = 3`: the C++ `%` gives `-1` and `mod` returns `2`. -/
theorem mod_on_nonneg_modulus_witness :
    mod (-7) 3 = 2 ∧
    (mod (-7) 0 = -7 ∧ 0 ≤ mod (-7) 3 ∧ mod (-7) 3 < 3 ∧ (3 : Int) ∣ -7 - mod (-7) 3) :=
  ⟨by decide, mod_on_nonneg_modulus (-7) 3 (by decide)⟩

/-- C13 (unification idempotence): for every abstract value `a` that satisfies the data-model
invariants, `unify_alternatives a a` passes its assertion and returns `a`. -/
theorem unify_alternatives_idempotent (a : ModulusRemainder) (ha : a.WellFormed) :
    unify_alternatives a a = some a := by
  have hf : UnifyFits a a := by
    simp [UnifyFits, FitsInt]
  obtain ⟨m, hm, _, hu, _⟩ := unify_alternatives_spec a a ha ha hf
  have hm' : m = a.modulus := by
    rw [hm]
    simp only [sub_self, lt_self_iff_false, if_false]
    rw [gcd_self_nonneg ha.1, gcd_zero_left_nonneg ha.1]
  rw [hu, hm', mod_of_wellFormed ha]

/-- C13 at the constant `(0, -5)`, whose remainder is negative. -/
theorem unify_alternatives_idempotent_witness :
    ModulusRemainder.WellFormed ⟨0, -5⟩ ∧
    unify_alternatives ⟨0, -5⟩ ⟨0, -5⟩ = some ⟨0, -5⟩ :=
  ⟨by decide, unify_alternatives_idempotent ⟨0, -5⟩ (by decide)⟩

/-- C14 (domain errors): when a node of kind `FloatImm`, `Ramp`, `Broadcast`, `EQ`, `NE`, `LT`,
`LE`, `GT`, `GE`, `And`, `Or`, `Not` or of a statement kind is the root of `e`, or is reached
through operands of `Add`, `Sub`, `Mul`, `Mod`, `Min`, `Max`, value branches of `Select` and
values and bodies of `Let`, then the analysis of `e` aborts and returns no pair, from every
analyzer state and for every scope. -/
theorem rejected_kind_aborts (e : Expr) (s : ComputeModulusRemainder) (S : Scope)
    (h : e.HasRejected = true) :
    s.analyze e = none ∧ modulus_remainder_in e S = none := by
  simp [analyze, analyzeWith, modulus_remainder_in, visit_none_of_hasRejected e _ h]

/-- C14 on `let y = 1 in select(c, y + 2, max(y, x < y))`, where the comparison is an operand
of `Max`, analysed in a scope that binds `x`. -/
theorem rejected_kind_aborts_witness :
    (Expr.Let "y" (.IntImm 1) (.Select (.Variable "c") (.Add (.Variable "y") (.IntImm 2))
        (.Max (.Variable "y") (.LT (.Variable "x") (.Variable "y"))))).HasRejected = true ∧
    ((ComputeModulusRemainder.fresh [("x", ⟨4, 1⟩)]).analyze
        (.Let "y" (.IntImm 1) (.Select (.Variable "c") (.Add (.Variable "y") (.IntImm 2))
          (.Max (.Variable "y") (.LT (.Variable "x") (.Variable "y"))))) = none ∧
      modulus_remainder_in
        (.Let "y" (.IntImm 1) (.Select (.Variable "c") (.Add (.Variable "y") (.IntImm 2))
          (.Max (.Variable "y") (.LT (.Variable "x") (.Variable "y"))))) [("x", ⟨4, 1⟩)] = none) :=
  ⟨by decide, rejected_kind_aborts _ _ _ (by decide)⟩

/-- C16 as stated does not hold, because of `int` overflow: `a = (0, 65536)` and
`b = (65536, 0)` satisfy the data-model invariants and describe `va = 65536` and `vb = 65536`,
`a.modulus = 0`, and the first branch of `Mul` computes `65536 * 65536`, which overflows to
`0`: the result `(0, 0)` claims the value `0`, and `va * vb = 4294967296`. -/
theorem mul_overflow_counterexample :
    ModulusRemainder.WellFormed ⟨0, 65536⟩ ∧ ModulusRemainder.WellFormed ⟨65536, 0⟩ ∧
    ModulusRemainder.Describes ⟨0, 65536⟩ 65536 ∧ ModulusRemainder.Describes ⟨65536, 0⟩ 65536 ∧
    wrap (65536 * 65536) = 0 ∧
    modulus_remainder_in (.Mul (.Variable "a") (.Variable "b"))
      [("a", ⟨0, 65536⟩), ("b", ⟨65536, 0⟩)] = some ⟨0, 0⟩ ∧
    ¬ ModulusRemainder.Describes ⟨0, 0⟩ (65536 * 65536) := by
  decide

/-- C16 amended: when the operands of `Mul` are analysed to `a` and `b`, which satisfy the
data-model invariants, the integers `va` and `vb` are described by `a` and `b`,
`a.modulus = 0` or `b.modulus = 0` or `a.remainder = 0` or `b.remainder = 0`, and the products
that the branch taken computes do not overflow `int` (`MulFits`), then the visit of the `Mul`
returns and the pair it leaves in the fields describes `va * vb`. Every pair of abstract
values is the analysis of two variables bound in the scope. -/
theorem mul_sound_outside_fallback (ea eb : Expr) (s s1 s2 : ComputeModulusRemainder)
    (a b : ModulusRemainder) (va vb : Int)
    (h1 : s.analyze ea = some (a, s1)) (h2 : s1.analyze eb = some (b, s2))
    (_ha : a.WellFormed) (_hb : b.WellFormed)
    (hva : a.Describes va) (hvb : b.Describes vb)
    (hbr : a.modulus = 0 ∨ b.modulus = 0 ∨ a.remainder = 0 ∨ b.remainder = 0)
    (hf : MulFits a b) :
    ∃ s3, visit (.Mul ea eb) s = some s3 ∧
      ModulusRemainder.Describes ⟨s3.modulus, s3.remainder⟩ (va * vb) := by
  unfold analyze at h1 h2
  have hda := describes_dvd hva
  have hdb := describes_dvd hvb
  simp only [visit, h1, h2]
  unfold MulFits at hf
  by_cases ham : a.modulus = 0
  · simp only [ham, if_true] at hf ⊢
    rw [wrap_of_fits hf.1, wrap_of_fits hf.2]
    refine ⟨_, rfl, ?_⟩
    have hva' := describes_const hva ham
    subst hva'
    unfold ModulusRemainder.Describes
    simp only []
    split
    · rename_i hz
      rcases mul_eq_zero.1 hz with h | h
      · simp [h]
      · rw [describes_const hvb h]
    · rw [← mul_sub]
      exact mul_dvd_mul_left _ hdb
  · by_cases hbm : b.modulus = 0
    · simp only [ham, hbm, if_true, if_false] at hf ⊢
      rw [wrap_of_fits hf.1, wrap_of_fits hf.2]
      refine ⟨_, rfl, ?_⟩
      have hvb' := describes_const hvb hbm
      subst hvb'
      unfold ModulusRemainder.Describes
      simp only []
      split
      · rename_i hz
        rcases mul_eq_zero.1 hz with h | h
        · simp [h]
        · exact absurd h ham
      · have : va * b.remainder - a.remainder * b.remainder
            = b.remainder * (va - a.remainder) := by ring
        rw [this]
        exact mul_dvd_mul_left _ hda
    · simp only [ham, hbm, if_false] at hf ⊢
      by_cases har : a.remainder = 0
      · have hda' : a.modulus ∣ va := by simpa [har] using hda
        by_cases hbr0 : b.remainder = 0
        · have hdb' : b.modulus ∣ vb := by simpa [hbr0] using hdb
          simp only [har, hbr0, and_self, if_true] at hf ⊢
          rw [wrap_of_fits hf]
          refine ⟨_, rfl, describes_of_dvd ?_ (mul_ne_zero ham hbm)⟩
          simpa using mul_dvd_mul hda' hdb'
        · simp only [har, hbr0, and_false, if_true, if_false] at hf ⊢
          rw [wrap_of_fits hf]
          have hg : gcd b.modulus b.remainder ∣ vb := by
            have h3 := Int.dvd_trans (gcd_dvd_left b.modulus b.remainder) hdb
            have h4 := Int.dvd_add h3 (gcd_dvd_right b.modulus b.remainder)
            simpa using h4
          have hg0 : gcd b.modulus b.remainder ≠ 0 := fun h => hbm (gcd_eq_zero h).1
          refine ⟨_, rfl, describes_of_dvd ?_ (mul_ne_zero ham hg0)⟩
          simpa using mul_dvd_mul hda' hg
      · have hbr0 : b.remainder = 0 := by
          rcases hbr with h | h | h | h
          · exact absurd h ham
          · exact absurd h hbm
          · exact absurd h har
          · exact h
        have hdb' : b.modulus ∣ vb := by simpa [hbr0] using hdb
        simp only [har, hbr0, false_and, if_true, if_false] at hf ⊢
        rw [wrap_of_fits hf]
        have hg : gcd a.modulus a.remainder ∣ va := by
          have h3 := Int.dvd_trans (gcd_dvd_left a.modulus a.remainder) hda
          have h4 := Int.dvd_add h3 (gcd_dvd_right a.modulus a.remainder)
          simpa using h4
        have hg0 : gcd a.modulus a.remainder ≠ 0 := fun h => ham (gcd_eq_zero h).1
        refine ⟨_, rfl, describes_of_dvd ?_ (mul_ne_zero hbm hg0)⟩
        have := mul_dvd_mul hdb' hg
        simpa [mul_comm] using this

/-- C16 amended, on the abstract values `a = (6, 0)` and `b = (4, 2)`, bound to the variables
`a` and `b` in the scope, with `va = 18` and `vb = 10`: the fourth branch of `Mul` computes
`6 * gcd(4, 2) = 12` and gives `(12, 0)`. -/
theorem mul_sound_outside_fallback_witness :
    MulFits ⟨6, 0⟩ ⟨4, 2⟩ ∧
    modulus_remainder_in (.Mul (.Variable "a") (.Variable "b")) [("a", ⟨6, 0⟩), ("b", ⟨4, 2⟩)]
      = some ⟨12, 0⟩ ∧
    ∃ s3, visit (.Mul (.Variable "a") (.Variable "b"))
        (ComputeModulusRemainder.fresh [("a", ⟨6, 0⟩), ("b", ⟨4, 2⟩)]) = some s3 ∧
      ModulusRemainder.Describes ⟨s3.modulus, s3.remainder⟩ (18 * 10) :=
  ⟨by decide, by decide,
    mul_sound_outside_fallback (.Variable "a") (.Variable "b")
      (ComputeModulusRemainder.fresh [("a", ⟨6, 0⟩), ("b", ⟨4, 2⟩)])
      ⟨6, 0, [("a", ⟨6, 0⟩), ("b", ⟨4, 2⟩)]⟩ ⟨4, 2, [("a", ⟨6, 0⟩), ("b", ⟨4, 2⟩)]⟩
      ⟨6, 0⟩ ⟨4, 2⟩ 18 10 (by decide) (by decide) (by decide) (by decide) (by decide)
      (by decide) (by decide) (by decide)⟩

/-- C17 (`Mod` under the model `a + z*b`): when the operands of `Mod` are analysed to
well-formed values `a` and `b` with `b.remainder ≥ 0`, and `va`, `vb` are described by `a`
and `b`, then the visit of the `Mod` returns with `modulus = gcd(gcd(a.m, b.m), b.r)` and
`remainder = mod(a.r, modulus)`, the modulus is not negative, and the pair describes
`va + z * vb` for every integer `z`. Every pair of abstract values is the analysis of two
variables bound in the scope. -/
theorem mod_transfer_sound (ea eb : Expr) (s s1 s2 : ComputeModulusRemainder)
    (a b : ModulusRemainder) (va vb z : Int)
    (h1 : s.analyze ea = some (a, s1)) (h2 : s1.analyze eb = some (b, s2))
    (ha : a.WellFormed) (hb : b.WellFormed) (hbr : 0 ≤ b.remainder)
    (hva : a.Describes va) (hvb : b.Describes vb) :
    ∃ s3, visit (.Mod ea eb) s = some s3 ∧
      s3.modulus = gcd (gcd a.modulus b.modulus) b.remainder ∧
      s3.remainder = mod a.remainder s3.modulus ∧
      0 ≤ s3.modulus ∧
      ModulusRemainder.Describes ⟨s3.modulus, s3.remainder⟩ (va + z * vb) := by
  unfold analyze at h1 h2
  have hda := describes_dvd hva
  have hdb := describes_dvd hvb
  simp only [visit, h1, h2]
  refine ⟨_, rfl, rfl, rfl, gcd_nonneg (gcd_nonneg ha.1 hb.1) hbr, ?_⟩
  simp only []
  generalize hm : gcd (gcd a.modulus b.modulus) b.remainder = m
  have hma : m ∣ a.modulus :=
    Int.dvd_trans (hm ▸ gcd_dvd_left _ _) (gcd_dvd_left _ _)
  have hmb : m ∣ b.modulus :=
    Int.dvd_trans (hm ▸ gcd_dvd_left _ _) (gcd_dvd_right _ _)
  have hmr : m ∣ b.remainder := hm ▸ gcd_dvd_right _ _
  have hvb' : m ∣ vb := by
    have := Int.dvd_add (Int.dvd_trans hmb hdb) hmr
    simpa using this
  have hva' : m ∣ va - a.remainder := Int.dvd_trans hma hda
  by_cases hz : m = 0
  · subst hz
    have e1 := zero_dvd_iff.1 hvb'
    have e2 := zero_dvd_iff.1 hva'
    simp only [ModulusRemainder.Describes, if_true, mod_zero, e1]
    linarith
  · refine describes_of_dvd ?_ hz
    have : va + z * vb - mod a.remainder m
        = (va - a.remainder) + z * vb + (a.remainder - mod a.remainder m) := by ring
    rw [this]
    exact Int.dvd_add (Int.dvd_add hva' (Dvd.dvd.mul_left hvb' z)) (mod_dvd _ _)

/-- C17 on the example of the source, `(8x + 5) mod (6x + 2)`, with `x = 1` and `z = -1`: the
operands are analysed to `(8, 5)` and `(6, 2)`, and the result is `(2, 1)`. -/
theorem mod_transfer_sound_witness :
    modulus_remainder (.Mod (.Add (.Mul (.IntImm 8) (.Variable "x")) (.IntImm 5))
        (.Add (.Mul (.IntImm 6) (.Variable "x")) (.IntImm 2))) = some ⟨2, 1⟩ ∧
    ∃ s3, visit (.Mod (.Add (.Mul (.IntImm 8) (.Variable "x")) (.IntImm 5))
        (.Add (.Mul (.IntImm 6) (.Variable "x")) (.IntImm 2))) (ComputeModulusRemainder.fresh [])
        = some s3 ∧
      s3.modulus = gcd (gcd 8 6) 2 ∧ s3.remainder = mod 5 s3.modulus ∧ 0 ≤ s3.modulus ∧
      ModulusRemainder.Describes ⟨s3.modulus, s3.remainder⟩ (13 + -1 * 8) :=
  ⟨by decide,
    mod_transfer_sound (.Add (.Mul (.IntImm 8) (.Variable "x")) (.IntImm 5))
      (.Add (.Mul (.IntImm 6) (.Variable "x")) (.IntImm 2))
      (ComputeModulusRemainder.fresh []) ⟨8, 5, []⟩ ⟨6, 2, []⟩ ⟨8, 5⟩ ⟨6, 2⟩ 13 8 (-1)
      (by decide) (by decide) (by decide) (by decide) (by decide) (by decide) (by decide)⟩

/-- C19 does not hold of the code: for `a = -1` and `m = -3` the C++ `%` gives `-1`, the code
adds `m`, and `mod` returns `-4`, which is not in `[0, |m|) = [0, 3)`. The analyzer makes this
call for `max((-3)*x + 2, -1)`: the operands are analysed to `(-3, 2)` and `(0, -1)`, the
modulus of `unify_alternatives` is `-3`, the residues are `mod(2, -3) = 2` and
`mod(-1, -3) = -4`, and the assertion `ra == rb` fails. -/
theorem mod_negative_modulus_out_of_range :
    (-1 : Int).tmod (-3) = -1 ∧ mod (-1) (-3) = -4 ∧
    ¬ (0 ≤ mod (-1) (-3) ∧ mod (-1) (-3) < ((-3 : Int).natAbs : Int)) ∧
    modulus_remainder (.Add (.Mul (.IntImm (-3)) (.Variable "x")) (.IntImm 2)) = some ⟨-3, 2⟩ ∧
    gcd 3 (gcd (-3) 0) = -3 ∧ mod 2 (-3) = 2 ∧
    modulus_remainder (.Max (.Add (.Mul (.IntImm (-3)) (.Variable "x")) (.IntImm 2))
      (.IntImm (-1))) = none := by
  decide

/-- C20 as stated does not hold, because of `int` overflow: `2147483647 + 1` is a
variable-free expression of `IntImm` and `Add`, its value is `2147483648`, and it is analysed
to `(0, -2147483648)`. -/
theorem constant_overflow_counterexample :
    (Expr.Add (.IntImm 2147483647) (.IntImm 1)).ConstArith = true ∧
    (Expr.Add (.IntImm 2147483647) (.IntImm 1)).eval (fun _ => 0) (fun _ _ => 0) = 2147483648 ∧
    modulus_remainder (.Add (.IntImm 2147483647) (.IntImm 1)) = some ⟨0, -2147483648⟩ := by
  decide

/-- C20 amended: the analysis of the literal `IntImm c` is `(0, c)` for every `c`, and every
variable-free expression built only from `IntImm`, `Add`, `Sub` and `Mul` in which every sum,
difference and product has a value that fits `int` (`ValuesFit`) is analysed, under every
scope, to `(0, v)` with `v` the value of the expression. -/
theorem constant_preservation (c : Int) (e : Expr) (S : Scope) (σ : String → Int)
    (ω : (String → Int) → Expr → Int) (h : e.ConstArith = true)
    (hf : e.ValuesFit σ ω = true) :
    modulus_remainder (.IntImm c) = some ⟨0, c⟩ ∧
    modulus_remainder_in (.IntImm c) S = some ⟨0, c⟩ ∧
    modulus_remainder_in e S = some ⟨0, e.eval σ ω⟩ := by
  refine ⟨rfl, rfl, ?_⟩
  simp [modulus_remainder_in, analyze, analyzeWith, visit_constArith e σ ω _ h hf]

/-- C20 amended, on `(2 + 3) * (-4) - 0`, whose value is `-20`, under a scope that binds `x`,
and on the literal `-7`. -/
theorem constant_preservation_witness :
    (Expr.Sub (.Mul (.Add (.IntImm 2) (.IntImm 3)) (.IntImm (-4))) (.IntImm 0)).eval
      (fun _ => 0) (fun _ _ => 0) = -20 ∧
    (modulus_remainder (.IntImm (-7)) = some ⟨0, -7⟩ ∧
    modulus_remainder_in (.IntImm (-7)) [("x", ⟨4, 1⟩)] = some ⟨0, -7⟩ ∧
    modulus_remainder_in (.Sub (.Mul (.Add (.IntImm 2) (.IntImm 3)) (.IntImm (-4))) (.IntImm 0))
        [("x", ⟨4, 1⟩)]
      = some ⟨0, (Expr.Sub (.Mul (.Add (.IntImm 2) (.IntImm 3)) (.IntImm (-4))) (.IntImm 0)).eval
          (fun _ => 0) (fun _ _ => 0)⟩) :=
  ⟨by decide,
    constant_preservation (-7) (.Sub (.Mul (.Add (.IntImm 2) (.IntImm 3)) (.IntImm (-4))) (.IntImm 0))
      [("x", ⟨4, 1⟩)] (fun _ => 0) (fun _ _ => 0) (by decide) (by decide)⟩

end Halide.Internal
